import Mathlib

set_option autoImplicit false
set_option maxRecDepth 8000

namespace Smartnode

/-!
Shallow embedding of `shared/services/beacon/client/types.go` from the
`nflaig/smartnode` repository: the scalar codecs (`uinteger`, `byteArray`),
the voluntary-exit request record, and the pooled committee decoder with its
acquire/release lifecycle. Go functions are translated into pure Lean
functions; the mutable receiver of an `UnmarshalJSON` method and the global
`sync.Pool` become explicit arguments and results; machine integers are `Nat`
with explicit `2 ^ 64` bounds where Go overflow semantics matter; fallible
calls return an explicit result type.
-/

/-- Parsed JSON document: the input shape handed to the unmarshalling layer.
Byte-level tokenising is done by the `github.com/goccy/go-json` library
(documented as `encoding/json`-compatible) and sits outside the translated
core; objects keep their fields in document order. -/
inductive Json where
  | null
  | bool (b : Bool)
  | num (n : Int)
  | str (s : String)
  | arr (elems : List Json)
  | obj (fields : List (String × Json))

/-- Kind tag of a JSON value, as named inside Go type-mismatch decode errors
("json: cannot unmarshal <kind> into Go value of type <target>"). -/
def Json.kindName : Json → String
  | .null => "null"
  | .bool _ => "bool"
  | .num _ => "number"
  | .str _ => "string"
  | .arr _ => "array"
  | .obj _ => "object"

/-- Errors produced along the decode paths of types.go: json type mismatches,
`strconv.NumError` with `ErrSyntax` (`parseFailInvalid`) or `ErrRange`
(`parseFailRange`) from `strconv.ParseUint`, hex failures from
`encoding/hex` (`InvalidByteError` / `ErrLength`), and the `fmt.Errorf`
wrapping used by `Committee.UnmarshalJSON`. -/
inductive GoErr where
  | typeMismatch (gotKind targetType : String)
  | parseFailInvalid (fn num : String)
  | parseFailRange (fn num : String)
  | hexInvalidByte (c : Char)
  | hexLength
  | wrap (msg : String) (inner : GoErr)
deriving DecidableEq

/-- Result of a fallible Go call (the `value, err` idiom). -/
inductive GoResult (α : Type) where
  | ok (val : α)
  | err (e : GoErr)
deriving DecidableEq

/-- `json.Unmarshal(data, &dataStr)` for a Go `string` target currently
holding `prior`: a JSON string replaces the value; JSON null leaves the value
untouched and reports no error (stdlib null semantics); anything else is a
type-mismatch error. -/
def jsonIntoString (j : Json) (prior : String) : GoResult String :=
  match j with
  | .str s => .ok s
  | .null => .ok prior
  | j => .err (.typeMismatch j.kindName "string")

/-- Digit-accumulation loop of `strconv.ParseUint(s, 10, 64)`: a non-digit
rune aborts with `ErrSyntax`; a value that would exceed `2 ^ 64 - 1` aborts
with `ErrRange`. Both carry the whole input string (the `Num` field of
`strconv.NumError`). -/
def parseUintLoop (s : String) : List Char → Nat → GoResult Nat
  | [], n => .ok n
  | ch :: rest, n =>
    if ch.isDigit then
      if n * 10 + (ch.toNat - 48) < 2 ^ 64 then
        parseUintLoop s rest (n * 10 + (ch.toNat - 48))
      else .err (.parseFailRange "ParseUint" s)
    else .err (.parseFailInvalid "ParseUint" s)

/-- `strconv.ParseUint(s, 10, 64)`: the empty string is `ErrSyntax`; a sign
rune is not permitted for unsigned parsing and fails as a non-digit, exactly
as in Go. -/
def strconv.ParseUint (s : String) : GoResult Nat :=
  if s.data.isEmpty then .err (.parseFailInvalid "ParseUint" s)
  else parseUintLoop s s.data 0

/-- Go's `int(i)` conversion of a `uint64` on a 64-bit platform: two's
complement reinterpretation, so values at or above `2 ^ 63` become negative. -/
def int64ofUint64 (v : Nat) : Int :=
  if v % 2 ^ 64 < 2 ^ 63 then ((v % 2 ^ 64 : Nat) : Int)
  else ((v % 2 ^ 64 : Nat) : Int) - 2 ^ 64

/-- `strconv.Itoa`: decimal formatting of a (signed) Go `int`. -/
def strconv.Itoa (n : Int) : String := toString n

/-- `func (i uinteger) MarshalJSON() ([]byte, error)`:
`json.Marshal(strconv.Itoa(int(i)))`. Marshalling a Go string never fails and
produces the quoted JSON string token, modelled as `Json.str`. -/
def uinteger.MarshalJSON (i : Nat) : Json :=
  .str (strconv.Itoa (int64ofUint64 i))

/-- `func (i *uinteger) UnmarshalJSON(data []byte) error`: unmarshal a JSON
string, then `strconv.ParseUint(dataStr, 10, 64)`; on success the parsed
value is stored in the receiver. -/
def uinteger.UnmarshalJSON (data : Json) : GoResult Nat :=
  match jsonIntoString data "" with
  | .err e => .err e
  | .ok dataStr => strconv.ParseUint dataStr

/-- Hex digit table of `encoding/hex`: lower-case output characters. -/
def hexDigitChar (n : Nat) : Char :=
  if n < 10 then Char.ofNat (48 + n) else Char.ofNat (87 + n)

/-- `encoding/hex` input digit table: accepts `0-9`, `a-f`, `A-F`. -/
def fromHexChar (c : Char) : Option Nat :=
  if 48 ≤ c.toNat ∧ c.toNat ≤ 57 then some (c.toNat - 48)
  else if 97 ≤ c.toNat ∧ c.toNat ≤ 102 then some (c.toNat - 87)
  else if 65 ≤ c.toNat ∧ c.toNat ≤ 70 then some (c.toNat - 55)
  else none

/-- Character stream of `hex.EncodeToString`: two lower-case hex digits per
input byte, high nibble first. Bytes are `Nat` values below 256. -/
def hexEncodeChars : List Nat → List Char
  | [] => []
  | b :: rest => hexDigitChar (b / 16) :: hexDigitChar (b % 16) :: hexEncodeChars rest

/-- `hex.EncodeToString`. -/
def hex.EncodeToString (b : List Nat) : String :=
  String.mk (hexEncodeChars b)

/-- Pair loop of `hex.Decode`: an invalid rune is `InvalidByteError` (first
offending rune), a trailing valid rune on odd length is `ErrLength`. -/
def hexDecodeChars : List Char → GoResult (List Nat)
  | [] => .ok []
  | [c] =>
    match fromHexChar c with
    | some _ => .err .hexLength
    | none => .err (.hexInvalidByte c)
  | c1 :: c2 :: rest =>
    match fromHexChar c1 with
    | none => .err (.hexInvalidByte c1)
    | some hi =>
      match fromHexChar c2 with
      | none => .err (.hexInvalidByte c2)
      | some lo =>
        match hexDecodeChars rest with
        | .err e => .err e
        | .ok bs => .ok ((16 * hi + lo) :: bs)

/-- `hex.DecodeString`. -/
def hex.DecodeString (s : String) : GoResult (List Nat) :=
  hexDecodeChars s.data

/-- True when the character data begins with the fixed marker `0x`. -/
def startsWith0x (s : String) : Bool :=
  match s.data with
  | c1 :: c2 :: _ => c1 == '0' && c2 == 'x'
  | _ => false

/-- Modelled from the spec: `hexutil.RemovePrefix` from
`shared/utils/hex` is code of this repository that is not under src/. Per the
spec, decode "strips the prefix (tolerating its absence)" where the prefix is
the fixed marker `0x`. -/
def hexutil.RemovePrefix (s : String) : String :=
  if startsWith0x s then String.mk (s.data.drop 2) else s

/-- Modelled from the spec: `hexutil.AddPrefix` from `shared/utils/hex` is
code of this repository that is not under src/. Per the spec, encode "always
prefixes", emitting the fixed marker `0x` in front of the hex text. -/
def hexutil.AddPrefix (s : String) : String :=
  if startsWith0x s then s else String.mk ('0' :: 'x' :: s.data)

/-- `func (b byteArray) MarshalJSON() ([]byte, error)`:
`json.Marshal(hexutil.AddPrefix(hex.EncodeToString(b)))`; marshalling a Go
string never fails, so the result is the quoted string token. -/
def byteArray.MarshalJSON (b : List Nat) : Json :=
  .str ( hexutil.AddPrefix (hex.EncodeToString b))

/-- `func (b *byteArray) UnmarshalJSON(data []byte) error`: unmarshal a JSON
string, then `hex.DecodeString(hexutil.RemovePrefix(dataStr))`; on success
the decoded bytes are stored in the receiver. -/
def byteArray.UnmarshalJSON (data : Json) : GoResult (List Nat) :=
  match jsonIntoString data "" with
  | .err e => .err e
  | .ok dataStr => hex.DecodeString ( hexutil.RemovePrefix dataStr)

/-- `type VoluntaryExitMessage struct { Epoch uinteger; ValidatorIndex string }`
with json tags `epoch` and `validator_index`. -/
structure VoluntaryExitMessage where
  Epoch : Nat
  ValidatorIndex : String
deriving DecidableEq

/-- `type VoluntaryExitRequest struct { Message VoluntaryExitMessage; Signature byteArray }`
with json tags `message` and `signature`. -/
structure VoluntaryExitRequest where
  Message : VoluntaryExitMessage
  Signature : List Nat
deriving DecidableEq

/-- Go zero value of `VoluntaryExitRequest`, the receiver state at the start
of a fresh `json.Unmarshal` call. -/
def VoluntaryExitRequest.zero : VoluntaryExitRequest :=
  ⟨⟨0, ""⟩, []⟩

/-- Generic `encoding/json` object loop for `VoluntaryExitMessage`: keys are
processed in document order; a key matching a struct tag decodes into that
field (the `epoch` field through `uinteger.UnmarshalJSON`, which is invoked
even on JSON null); unknown keys are ignored; absent fields keep their prior
values. Go's case-insensitive tag fallback is elided (all keys of interest
are exact lower-case matches). The library aborts on the first field error. -/
def decodeVoluntaryExitMessageFields :
    VoluntaryExitMessage → List (String × Json) → GoResult VoluntaryExitMessage
  | m, [] => .ok m
  | m, (k, v) :: rest =>
    if k = "epoch" then
      match uinteger.UnmarshalJSON v with
      | .err e => .err e
      | .ok n => decodeVoluntaryExitMessageFields { m with Epoch := n } rest
    else if k = "validator_index" then
      match jsonIntoString v m.ValidatorIndex with
      | .err e => .err e
      | .ok s => decodeVoluntaryExitMessageFields { m with ValidatorIndex := s } rest
    else decodeVoluntaryExitMessageFields m rest

/-- `json.Unmarshal` into a `VoluntaryExitMessage` value: JSON null is a
no-op, an object runs the field loop, anything else is a type mismatch. -/
def decodeVoluntaryExitMessage (m : VoluntaryExitMessage) (j : Json) :
    GoResult VoluntaryExitMessage :=
  match j with
  | .obj flds => decodeVoluntaryExitMessageFields m flds
  | .null => .ok m
  | j => .err (.typeMismatch j.kindName "VoluntaryExitMessage")

/-- Generic `encoding/json` object loop for `VoluntaryExitRequest`: the
`message` key decodes the nested struct, the `signature` key runs
`byteArray.UnmarshalJSON`, unknown keys are ignored, absent fields keep their
prior values. -/
def decodeVoluntaryExitRequestFields :
    VoluntaryExitRequest → List (String × Json) → GoResult VoluntaryExitRequest
  | r, [] => .ok r
  | r, (k, v) :: rest =>
    if k = "message" then
      match decodeVoluntaryExitMessage r.Message v with
      | .err e => .err e
      | .ok m => decodeVoluntaryExitRequestFields { r with Message := m } rest
    else if k = "signature" then
      match byteArray.UnmarshalJSON v with
      | .err e => .err e
      | .ok bs => decodeVoluntaryExitRequestFields { r with Signature := bs } rest
    else decodeVoluntaryExitRequestFields r rest

/-- `json.Unmarshal` into a `VoluntaryExitRequest` value. -/
def decodeVoluntaryExitRequest (r : VoluntaryExitRequest) (j : Json) :
    GoResult VoluntaryExitRequest :=
  match j with
  | .obj flds => decodeVoluntaryExitRequestFields r flds
  | .null => .ok r
  | j => .err (.typeMismatch j.kindName "VoluntaryExitRequest")

/-- A Go `[]string` slice header: the identity of its backing array, the
visible elements (the length is `data.length`), and the capacity of the
backing array. The nil slice is `⟨0, [], 0⟩`; identities of real arrays are
drawn from the pool state's counter, starting at 1. -/
structure Buf where
  id : Nat
  data : List String
  cap : Nat
deriving DecidableEq

/-- `committee.Validators[:0]`: length reset to zero, identity and capacity
of the backing array retained. -/
def Buf.truncate (b : Buf) : Buf :=
  { b with data := [] }

/-- State of `validatorSlicePool`, the package-level `sync.Pool` of
`[]string` buffers. `sync.Pool` exposes no ordering and may drop items under
garbage collection; the claims concern the reuse path, so the pool is
modelled as a deterministic free list (LIFO) that never drops, together with
the counter supplying fresh backing-array identities. -/
structure PoolState where
  available : List Buf
  nextId : Nat
deriving DecidableEq

/-- `validatorSlicePool.Get().([]string)`: a pooled buffer when one is
available, otherwise the `New` function's fresh `make([]string, 0, 1024)`.
Never blocks, never fails. -/
def PoolState.get (p : PoolState) : Buf × PoolState :=
  match p.available with
  | b :: rest => (b, { p with available := rest })
  | [] => ({ id := p.nextId, data := [], cap := 1024 }, { p with nextId := p.nextId + 1 })

/-- `validatorSlicePool.Put(b)`. -/
def PoolState.put (p : PoolState) (b : Buf) : PoolState :=
  { p with available := b :: p.available }

/-- `type Committee struct { Index uinteger; Slot uinteger; Validators []string }`. -/
structure Committee where
  Index : Nat
  Slot : Nat
  Validators : Buf
deriving DecidableEq

/-- Outcome of `Committee.UnmarshalJSON`: a normal `error` return, or the Go
runtime panic raised by dereferencing a nil `*json.RawMessage` (`nilDeref`). -/
inductive Outcome where
  | ok
  | fail (e : GoErr)
  | nilDeref
deriving DecidableEq

/-- Decoding a JSON array into a `[]string` target decodes every element into
a fresh zero-valued string (JSON null leaves the zero value in place); order
is preserved. The library aborts on the first element error. -/
def decodeStringList : List Json → GoResult (List String)
  | [] => .ok []
  | j :: rest =>
    match jsonIntoString j "" with
    | .err e => .err e
    | .ok s =>
      match decodeStringList rest with
      | .err e => .err e
      | .ok l => .ok (s :: l)

/-- `json.Unmarshal(raw, &c.Validators)` where the target slice is `buf`
(length 0 when it comes from the pool): an array within capacity reuses the
backing array (same identity, same capacity); an array beyond capacity
reallocates a fresh backing array (growth policy is library-internal; it is
modelled as an exact-size reallocation, and no claim depends on the grown
capacity); JSON null sets the slice to nil; anything else is a type
mismatch. -/
def unmarshalIntoStringSlice (buf : Buf) (p : PoolState) (j : Json) :
    GoResult (Buf × PoolState) :=
  match j with
  | .null => .ok (⟨0, [], 0⟩, p)
  | .arr elems =>
    match decodeStringList elems with
    | .err e => .err e
    | .ok strs =>
      if strs.length ≤ buf.cap then .ok ({ buf with data := strs }, p)
      else .ok ({ id := p.nextId, data := strs, cap := strs.length },
                { p with nextId := p.nextId + 1 })
  | j => .err (.typeMismatch j.kindName "[]string")

/-- Go map assignment `m[k] = v`: replaces an existing key, else appends. -/
def rawMapInsert : List (String × Option Json) → String → Option Json → List (String × Option Json)
  | [], k, v => [(k, v)]
  | (k0, v0) :: rest, k, v =>
    if k0 = k then (k, v) :: rest else (k0, v0) :: rawMapInsert rest k v

/-- Building `map[string]*json.RawMessage` from an object's fields: keys are
inserted in document order (later duplicates overwrite); a JSON null value
sets the `*json.RawMessage` pointer to nil (`none`). -/
def buildRawMap (flds : List (String × Json)) : List (String × Option Json) :=
  flds.foldl
    (fun m kv =>
      rawMapInsert m kv.1 (match kv.2 with | Json.null => none | v => some v))
    []

/-- Map lookup returning the stored `*json.RawMessage` for a present key. -/
def rawMapFind : List (String × Option Json) → String → Option (Option Json)
  | [], _ => none
  | (k0, v0) :: rest, k => if k0 = k then some v0 else rawMapFind rest k

/-- `committee[k]` followed by the nil test implicit in dereferencing:
`none` when the key is absent (a Go map read returns the zero value, a nil
pointer) and also when the key is present with a nil pointer (JSON null);
in both cases `*committee[k]` dereferences nil. -/
def rawGet (m : List (String × Option Json)) (k : String) : Option Json :=
  match rawMapFind m k with
  | some (some j) => some j
  | _ => none

/-- `json.Unmarshal(body, &committee)` for
`var committee map[string]*json.RawMessage`: an object builds the map; JSON
null sets the map itself to nil (lookups on a nil map return nil pointers,
so it behaves as the empty map here); anything else is a type mismatch. -/
def jsonToRawMap : Json → GoResult (List (String × Option Json))
  | .obj flds => .ok (buildRawMap flds)
  | .null => .ok []
  | j => .err (.typeMismatch j.kindName "map[string]*json.RawMessage")

/-- `func (c *Committee) UnmarshalJSON(body []byte) error`, translated
line by line. The receiver `c` and the pool are explicit: the function first
draws `pooledSlice` from the pool and stores it in `c.Validators`, then
partially parses the body into a raw-message map (a failure is wrapped with
the message "error unmarshalling committee json"), then decodes the fields
`index`, `slot`, `validators` in that order. Each field is read by
dereferencing `*committee[<key>]` with no nil check, so an absent (or null)
key is a nil dereference — the Go runtime panic, modelled as
`Outcome.nilDeref`; field decode errors are returned as-is. -/
def Committee.UnmarshalJSON (c : Committee) (p : PoolState) (body : Json) :
    Outcome × Committee × PoolState :=
  let pooledSlice := (PoolState.get p).1
  let p1 := (PoolState.get p).2
  let c1 : Committee := { c with Validators := pooledSlice }
  match jsonToRawMap body with
  | .err e => (.fail (.wrap "error unmarshalling committee json" e), c1, p1)
  | .ok committee =>
    match rawGet committee "index" with
    | none => (.nilDeref, c1, p1)
    | some rawIndex =>
      match uinteger.UnmarshalJSON rawIndex with
      | .err e => (.fail e, c1, p1)
      | .ok idxVal =>
        let c2 : Committee := { c1 with Index := idxVal }
        match rawGet committee "slot" with
        | none => (.nilDeref, c2, p1)
        | some rawSlot =>
          match uinteger.UnmarshalJSON rawSlot with
          | .err e => (.fail e, c2, p1)
          | .ok slotVal =>
            let c3 : Committee := { c2 with Slot := slotVal }
            match rawGet committee "validators" with
            | none => (.nilDeref, c3, p1)
            | some rawVals =>
              match unmarshalIntoStringSlice c3.Validators p1 rawVals with
              | .err e => (.fail e, c3, p1)
              | .ok bp => (.ok, { c3 with Validators := bp.1 }, bp.2)

/-- `type CommitteesResponse struct { Data []Committee }`. -/
structure CommitteesResponse where
  Data : List Committee
deriving DecidableEq

/-- `func (c *CommitteesResponse) Count() int`. -/
def CommitteesResponse.Count (c : CommitteesResponse) : Nat :=
  c.Data.length

/-- `func (c *CommitteesResponse) Index(idx int) uint64`; Go panics on an
out-of-range index, modelled by the `Option`. -/
def CommitteesResponse.Index (c : CommitteesResponse) (idx : Nat) : Option Nat :=
  (c.Data.get? idx).map Committee.Index

/-- `func (c *CommitteesResponse) Slot(idx int) uint64`. -/
def CommitteesResponse.Slot (c : CommitteesResponse) (idx : Nat) : Option Nat :=
  (c.Data.get? idx).map Committee.Slot

/-- `func (c *CommitteesResponse) Validators(idx int) []string`. -/
def CommitteesResponse.Validators (c : CommitteesResponse) (idx : Nat) : Option Buf :=
  (c.Data.get? idx).map Committee.Validators

/-- `func (c *CommitteesResponse) Release()`:
`for _, committee := range c.Data { committee.Validators = committee.Validators[:0]; validatorSlicePool.Put(committee.Validators) }`.
The range variable `committee` is a copy of each record, so the slice-header
assignment mutates only the copy and `c.Data` is never written; the pool
receives, per record in iteration order, the length-zero view of that
record's backing array. The (unchanged) response is returned alongside the
new pool state to make this frame condition explicit. -/
def CommitteesResponse.Release (c : CommitteesResponse) (p : PoolState) :
    CommitteesResponse × PoolState :=
  (c, c.Data.foldl (fun pool committee => pool.put committee.Validators.truncate) p)

/-- Sample committee document from the spec:
`{"index":"3","slot":"100","validators":["12","45","99"]}`. -/
def sampleCommitteeDoc : Json :=
  .obj [("index", .str "3"), ("slot", .str "100"),
        ("validators", .arr [.str "12", .str "45", .str "99"])]

/-- Go zero value of `Committee`, the receiver at a fresh decode. -/
def zeroCommittee : Committee :=
  ⟨0, 0, ⟨0, [], 0⟩⟩

/-- A pool with nothing available (process start). -/
def emptyPool : PoolState :=
  ⟨[], 1⟩

/-- Decoding a hex digit emitted by the encoder recovers the nibble. -/
theorem fromHexChar_hexDigitChar : ∀ n : Nat, n < 16 → fromHexChar (hexDigitChar n) = some n := by
  decide

/-- The encoder's digit alphabet (`0-9a-f`) does not contain `x`. -/
theorem hexDigitChar_ne_x : ∀ n : Nat, n < 16 → (hexDigitChar n == 'x') = false := by
  decide

/-- Hex decoding inverts hex encoding on byte sequences. -/
theorem hexDecode_hexEncode (b : List Nat) (h : ∀ x ∈ b, x < 256) :
    hexDecodeChars (hexEncodeChars b) = .ok b := by
  induction b with
  | nil => rfl
  | cons x rest ih =>
    have hx : x < 256 := h x (List.mem_cons_self x rest)
    have h1 : x / 16 < 16 := Nat.div_lt_of_lt_mul (by omega)
    have h2 : x % 16 < 16 := Nat.mod_lt x (by omega)
    have hrest : hexDecodeChars (hexEncodeChars rest) = .ok rest :=
      ih (fun y hy => h y (List.mem_cons_of_mem x hy))
    simp only [hexEncodeChars, hexDecodeChars, fromHexChar_hexDigitChar _ h1,
      fromHexChar_hexDigitChar _ h2, hrest]
    rw [Nat.div_add_mod]

/-- A hex encoding never begins with the `0x` marker, since `x` is not a hex
digit. -/
theorem startsWith0x_hexEncode (b : List Nat) :
    startsWith0x (hex.EncodeToString b) = false := by
  cases b with
  | nil => rfl
  | cons x rest =>
    have h2 : x % 16 < 16 := Nat.mod_lt x (by omega)
    simp only [hex.EncodeToString, hexEncodeChars, startsWith0x]
    rw [hexDigitChar_ne_x _ h2, Bool.and_false]

/-- Decoding a JSON array of strings preserves the values and their order. -/
theorem decodeStringList_map_str (ss : List String) :
    decodeStringList (ss.map Json.str) = .ok ss := by
  induction ss with
  | nil => rfl
  | cons s rest ih => simp [decodeStringList, jsonIntoString, ih]

/-- The release loop pushes, per record in iteration order, the length-zero
view of that record's buffer onto the pool's free list. -/
theorem release_foldl_available (l : List Committee) (p : PoolState) :
    (l.foldl (fun pool committee => pool.put committee.Validators.truncate) p).available =
      (l.map (fun r => r.Validators.truncate)).reverse ++ p.available := by
  induction l generalizing p with
  | nil => rfl
  | cons x rest ih =>
    rw [List.foldl_cons, List.map_cons, List.reverse_cons, ih]
    simp [PoolState.put, List.append_assoc]

/-- `Release` restated through `CommitteesResponse.Release`. -/
theorem release_available (c : CommitteesResponse) (p : PoolState) :
    ((c.Release p).2).available =
      (c.Data.map (fun r => r.Validators.truncate)).reverse ++ p.available :=
  release_foldl_available c.Data p

/-- The generic object loop for `VoluntaryExitRequest` never touches the
signature field when no `signature` key occurs in the document. -/
theorem decodeVoluntaryExitRequestFields_signature :
    ∀ (flds : List (String × Json)) (r0 r1 : VoluntaryExitRequest),
      flds.all (fun kv => kv.1 != "signature") = true →
      decodeVoluntaryExitRequestFields r0 flds = .ok r1 →
      r1.Signature = r0.Signature := by
  intro flds
  induction flds with
  | nil =>
    intro r0 r1 _ h
    simp only [decodeVoluntaryExitRequestFields, GoResult.ok.injEq] at h
    rw [h]
  | cons kv rest ih =>
    intro r0 r1 hall h
    obtain ⟨k, v⟩ := kv
    rw [List.all_cons, Bool.and_eq_true] at hall
    obtain ⟨hk, hrest⟩ := hall
    rw [decodeVoluntaryExitRequestFields] at h
    by_cases hm : k = "message"
    · rw [if_pos hm] at h
      rcases hdec : decodeVoluntaryExitMessage r0.Message v with m | e
      · rw [hdec] at h
        exact ih { r0 with Message := m } r1 hrest h
      · rw [hdec] at h
        simp at h
    · by_cases hs : k = "signature"
      · exfalso
        rw [hs] at hk
        simp at hk
      · rw [if_neg hm, if_neg hs] at h
        exact ih r0 r1 hrest h

/-- Claim C1 (code bug): the `uinteger` round-trip promised by the spec fails
at `2 ^ 63`: `MarshalJSON` goes through `strconv.Itoa(int(i))`, so the value
is reinterpreted as a signed 64-bit `int` and encoded as the signed decimal
string `"-9223372036854775808"`, which `UnmarshalJSON`'s
`strconv.ParseUint` then rejects with `ErrSyntax`. -/
theorem uinteger_roundtrip_fails_at_two_pow_63 :
    uinteger.MarshalJSON (2 ^ 63) = .str "-9223372036854775808" ∧
    uinteger.UnmarshalJSON (uinteger.MarshalJSON (2 ^ 63)) =
      .err (.parseFailInvalid "ParseUint" "-9223372036854775808") :=
  ⟨rfl, by decide⟩

/-- Claim C2, counterexample: a committee document in which the `index` field
is absent makes `Committee.UnmarshalJSON` dereference the nil
`*json.RawMessage` returned by the map read — a runtime panic
(`Outcome.nilDeref`), not a decode error naming the field. -/
theorem committee_missing_index_panics_cex :
    (Committee.UnmarshalJSON zeroCommittee emptyPool
        (.obj [("slot", Json.str "1"), ("validators", Json.arr [Json.str "5"])])).1 =
      .nilDeref := by
  decide

/-- Claim C2, amended: over JSON-object bodies, an absent (or null) `index`
key panics via nil dereference, and so do an absent `slot` (after `index`
decodes) and an absent `validators` (after `index` and `slot` decode); a
present-but-malformed field — `index`, `slot` (after a well-formed `index`)
or `validators` (after well-formed `index` and `slot`) — returns the
underlying decode error unchanged, which does not name the field; a body
that is not an object yields an error naming the committee json; and a
success outcome implies all three named fields were present. -/
theorem committee_decode_error_behaviour (c : Committee) (p : PoolState)
    (flds : List (String × Json)) :
    (rawGet (buildRawMap flds) "index" = none →
      (Committee.UnmarshalJSON c p (.obj flds)).1 = .nilDeref) ∧
    (∀ ji e, rawGet (buildRawMap flds) "index" = some ji →
      uinteger.UnmarshalJSON ji = .err e →
      (Committee.UnmarshalJSON c p (.obj flds)).1 = .fail e) ∧
    (∀ ji vi, rawGet (buildRawMap flds) "index" = some ji →
      uinteger.UnmarshalJSON ji = .ok vi →
      rawGet (buildRawMap flds) "slot" = none →
      (Committee.UnmarshalJSON c p (.obj flds)).1 = .nilDeref) ∧
    (∀ ji vi js e, rawGet (buildRawMap flds) "index" = some ji →
      uinteger.UnmarshalJSON ji = .ok vi →
      rawGet (buildRawMap flds) "slot" = some js →
      uinteger.UnmarshalJSON js = .err e →
      (Committee.UnmarshalJSON c p (.obj flds)).1 = .fail e) ∧
    (∀ ji vi js vs, rawGet (buildRawMap flds) "index" = some ji →
      uinteger.UnmarshalJSON ji = .ok vi →
      rawGet (buildRawMap flds) "slot" = some js →
      uinteger.UnmarshalJSON js = .ok vs →
      rawGet (buildRawMap flds) "validators" = none →
      (Committee.UnmarshalJSON c p (.obj flds)).1 = .nilDeref) ∧
    (∀ ji vi js vs jv e, rawGet (buildRawMap flds) "index" = some ji →
      uinteger.UnmarshalJSON ji = .ok vi →
      rawGet (buildRawMap flds) "slot" = some js →
      uinteger.UnmarshalJSON js = .ok vs →
      rawGet (buildRawMap flds) "validators" = some jv →
      unmarshalIntoStringSlice (PoolState.get p).1 (PoolState.get p).2 jv = .err e →
      (Committee.UnmarshalJSON c p (.obj flds)).1 = .fail e) ∧
    (∀ j e, jsonToRawMap j = .err e →
      (Committee.UnmarshalJSON c p j).1 =
        .fail (.wrap "error unmarshalling committee json" e)) ∧
    ((Committee.UnmarshalJSON c p (.obj flds)).1 = .ok →
      rawGet (buildRawMap flds) "index" ≠ none ∧
      rawGet (buildRawMap flds) "slot" ≠ none ∧
      rawGet (buildRawMap flds) "validators" ≠ none) := by
  refine ⟨?_, ?_, ?_, ?_, ?_, ?_, ?_, ?_⟩
  · intro h
    simp [Committee.UnmarshalJSON, jsonToRawMap, h]
  · intro ji e hji he
    simp [Committee.UnmarshalJSON, jsonToRawMap, hji, he]
  · intro ji vi hji hvi hs
    simp [Committee.UnmarshalJSON, jsonToRawMap, hji, hvi, hs]
  · intro ji vi js e hji hvi hjs hes
    simp [Committee.UnmarshalJSON, jsonToRawMap, hji, hvi, hjs, hes]
  · intro ji vi js vs hji hvi hjs hvs hv
    simp [Committee.UnmarshalJSON, jsonToRawMap, hji, hvi, hjs, hvs, hv]
  · intro ji vi js vs jv e hji hvi hjs hvs hjv hev
    simp [Committee.UnmarshalJSON, jsonToRawMap, hji, hvi, hjs, hvs, hjv, hev]
  · intro j e hj
    simp [Committee.UnmarshalJSON, hj]
  · intro hok
    rcases hidx : rawGet (buildRawMap flds) "index" with _ | ji
    · simp [Committee.UnmarshalJSON, jsonToRawMap, hidx] at hok
    · rcases hdi : uinteger.UnmarshalJSON ji with vi | e
      · rcases hslot : rawGet (buildRawMap flds) "slot" with _ | js
        · simp [Committee.UnmarshalJSON, jsonToRawMap, hidx, hdi, hslot] at hok
        · rcases hds : uinteger.UnmarshalJSON js with vs | e2
          · rcases hval : rawGet (buildRawMap flds) "validators" with _ | jv
            · simp [Committee.UnmarshalJSON, jsonToRawMap, hidx, hdi, hslot, hds, hval] at hok
            · exact ⟨by simp [hidx], by simp [hslot], by simp [hval]⟩
          · simp [Committee.UnmarshalJSON, jsonToRawMap, hidx, hdi, hslot, hds] at hok
      · simp [Committee.UnmarshalJSON, jsonToRawMap, hidx, hdi] at hok

/-- Witness for the amended claim C2: on a concrete document with no `index`
key the decode ends in the nil-dereference panic. -/
theorem committee_decode_error_behaviour_witness :
    (Committee.UnmarshalJSON zeroCommittee emptyPool (.obj [("slot", Json.str "1")])).1 =
      .nilDeref :=
  (committee_decode_error_behaviour zeroCommittee emptyPool [("slot", Json.str "1")]).1 rfl

/-- Claim C3, counterexample: decoding a voluntary-exit request whose JSON is
missing the `signature` field does not fail — Go's generic struct decoding
has no missing-field error — it succeeds with the signature left at its zero
value (the empty byte sequence). -/
theorem voluntary_exit_missing_signature_succeeds_cex :
    decodeVoluntaryExitRequest VoluntaryExitRequest.zero
        (.obj [("message", .obj [("epoch", .str "5"), ("validator_index", .str "7")])]) =
      .ok ⟨⟨5, "7"⟩, []⟩ := by
  decide

/-- Claim C3, amended: for every voluntary-exit document without a
`signature` key, any successful decode from the zero value yields an empty
signature — missing required fields are silently left at their zero values
rather than reported. -/
theorem voluntary_exit_missing_signature_zero_value
    (flds : List (String × Json)) (r : VoluntaryExitRequest)
    (hnosig : flds.all (fun kv => kv.1 != "signature") = true)
    (hok : decodeVoluntaryExitRequest VoluntaryExitRequest.zero (.obj flds) = .ok r) :
    r.Signature = [] :=
  decodeVoluntaryExitRequestFields_signature flds VoluntaryExitRequest.zero r hnosig hok

/-- Witness for the amended claim C3 at the concrete signature-less sample
document. -/
theorem voluntary_exit_missing_signature_zero_value_witness :
    (⟨⟨5, "7"⟩, []⟩ : VoluntaryExitRequest).Signature = [] :=
  voluntary_exit_missing_signature_zero_value
    [("message", .obj [("epoch", .str "5"), ("validator_index", .str "7")])]
    ⟨⟨5, "7"⟩, []⟩ (by decide) (by decide)

/-- Claim C4: releasing a batch of N records pushes exactly N buffers onto
the pool, each the length-zero, capacity- and identity-preserving view of a
record's buffer; and in an acquire/release/acquire cycle (the acquired buffer
filled in place with arbitrary contents) the second acquire returns a buffer
of length zero whose capacity is at least that of the first. -/
theorem committees_release_pool_accounting (c : CommitteesResponse) (p : PoolState) :
    ((c.Release p).2).available =
      (c.Data.map (fun r => r.Validators.truncate)).reverse ++ p.available ∧
    ((c.Release p).2).available.length = c.Count + p.available.length ∧
    (∀ x ∈ c.Data.map (fun r => r.Validators.truncate), x.data = []) ∧
    ∀ (q : PoolState) (ds : List String) (i s : Nat),
      ((CommitteesResponse.Release ⟨[⟨i, s, { (PoolState.get q).1 with data := ds }⟩]⟩
          (PoolState.get q).2).2.get).1.data = [] ∧
      (PoolState.get q).1.cap ≤
        ((CommitteesResponse.Release ⟨[⟨i, s, { (PoolState.get q).1 with data := ds }⟩]⟩
            (PoolState.get q).2).2.get).1.cap := by
  refine ⟨release_available c p, ?_, ?_, ?_⟩
  · rw [release_available]
    simp [CommitteesResponse.Count]
  · intro x hx
    rw [List.mem_map] at hx
    obtain ⟨r, _, rfl⟩ := hx
    rfl
  · intro q ds i s
    exact ⟨rfl, Nat.le_refl _⟩

/-- Claim C5 (code bug): encoding a `uinteger` always yields a quoted JSON
string token, never a bare number — but at `2 ^ 63` the decimal text carries
a sign, because `strconv.Itoa(int(i))` reinterprets the value as a signed
`int`, contradicting the digits-only contract. -/
theorem uinteger_marshal_signed_at_two_pow_63 :
    (∀ v : Nat, ∃ s : String, uinteger.MarshalJSON v = .str s) ∧
    uinteger.MarshalJSON (2 ^ 63) = .str "-9223372036854775808" ∧
    "-9223372036854775808".data.all Char.isDigit = false :=
  ⟨fun v => ⟨strconv.Itoa (int64ofUint64 v), rfl⟩, rfl, by decide⟩

/-- Claim C6: the sample committee document decodes to index 3, slot 100 and
validators `["12", "45", "99"]` in exactly the document's order; and
decoding any JSON array of strings preserves order. -/
theorem committee_decode_sample_and_order :
    ((Committee.UnmarshalJSON zeroCommittee emptyPool sampleCommitteeDoc).1 = .ok ∧
      (Committee.UnmarshalJSON zeroCommittee emptyPool sampleCommitteeDoc).2.1.Index = 3 ∧
      (Committee.UnmarshalJSON zeroCommittee emptyPool sampleCommitteeDoc).2.1.Slot = 100 ∧
      (Committee.UnmarshalJSON zeroCommittee emptyPool sampleCommitteeDoc).2.1.Validators.data =
        ["12", "45", "99"]) ∧
    ∀ ss : List String, decodeStringList (ss.map Json.str) = .ok ss :=
  ⟨by decide, decodeStringList_map_str⟩

/-- Claim C7: `"abc"` fails the `uinteger` decode with `ErrSyntax` (the
spec's NotNumeric), `"18446744073709551616"` (`2 ^ 64`) fails with
`ErrRange` (OutOfRange), and `"0xzz"` fails the `byteArray` decode with
`InvalidByteError` on `z` (InvalidHex). -/
theorem scalar_decode_rejections :
    uinteger.UnmarshalJSON (.str "abc") = .err (.parseFailInvalid "ParseUint" "abc") ∧
    uinteger.UnmarshalJSON (.str "18446744073709551616") =
      .err (.parseFailRange "ParseUint" "18446744073709551616") ∧
    byteArray.UnmarshalJSON (.str "0xzz") = .err (.hexInvalidByte 'z') :=
  ⟨by decide, by decide, by decide⟩

/-- Claim C8: for every byte sequence (each byte below 256), hex-encoding
with the `0x` marker and decoding again restores the sequence, and the empty
sequence encodes to just the marker `"0x"`. -/
theorem byteArray_roundtrip (b : List Nat) (h : ∀ x ∈ b, x < 256) :
    byteArray.UnmarshalJSON (byteArray.MarshalJSON b) = .ok b ∧
    byteArray.MarshalJSON [] = .str "0x" := by
  constructor
  · show hex.DecodeString
        ( hexutil.RemovePrefix ( hexutil.AddPrefix (hex.EncodeToString b))) = .ok b
    rw [hexutil.AddPrefix, startsWith0x_hexEncode b]
    simp only [Bool.false_eq_true, if_false]
    rw [hexutil.RemovePrefix]
    simp only [startsWith0x, List.drop_succ_cons, List.drop_zero]
    show hexDecodeChars (hexEncodeChars b) = .ok b
    exact hexDecode_hexEncode b h
  · rfl

/-- Witness for claim C8 at the concrete byte sequence `[0, 171, 255]`. -/
theorem byteArray_roundtrip_witness :
    byteArray.UnmarshalJSON (byteArray.MarshalJSON [0, 171, 255]) = .ok [0, 171, 255] ∧
    byteArray.MarshalJSON [] = .str "0x" :=
  byteArray_roundtrip [0, 171, 255] (by decide)

/-- Claim C9: both `"0xdead"` and `"dead"` decode to the bytes
`{0xDE, 0xAD}`, and more generally prefixing any non-prefixed payload with
`0x` never changes the decode result — the marker's absence is tolerated. -/
theorem byteArray_prefix_tolerance :
    byteArray.UnmarshalJSON (.str "0xdead") = .ok [0xde, 0xad] ∧
    byteArray.UnmarshalJSON (.str "dead") = .ok [0xde, 0xad] ∧
    ∀ s : String, startsWith0x s = false →
      byteArray.UnmarshalJSON (.str (String.mk ('0' :: 'x' :: s.data))) =
        byteArray.UnmarshalJSON (.str s) := by
  refine ⟨by decide, by decide, ?_⟩
  intro s hs
  show hex.DecodeString ( hexutil.RemovePrefix (String.mk ('0' :: 'x' :: s.data))) =
      hex.DecodeString ( hexutil.RemovePrefix s)
  rw [hexutil.RemovePrefix, hexutil.RemovePrefix, hs]
  simp [startsWith0x, hex.DecodeString]

/-- Witness for claim C9's tolerance clause at the payload `"ab"`. -/
theorem byteArray_prefix_tolerance_witness :
    byteArray.UnmarshalJSON (.str (String.mk ('0' :: 'x' :: ("ab").data))) =
      byteArray.UnmarshalJSON (.str "ab") :=
  byteArray_prefix_tolerance.2.2 "ab" (by decide)

/-- Claim C10: `Release` iterates over value copies of the records, so the
batch itself is untouched — every stored record keeps its original
`Validators` slice header (original length and contents) — while the pool
receives, for each record, the length-zero view of the same backing array
(same identity, same capacity). -/
theorem committees_release_frame (c : CommitteesResponse) (p : PoolState) (i : Nat) :
    (c.Release p).1 = c ∧
    ((c.Release p).1).Validators i = c.Validators i ∧
    ((c.Release p).2).available =
      (c.Data.map (fun r => r.Validators.truncate)).reverse ++ p.available :=
  ⟨rfl, rfl, release_available c p⟩

end Smartnode
